import Mathlib

/-!
# Verification of the APBS no-input Python driver (tools/python/noinput.py)

This file gives a shallow embedding of the calculation-orchestration and
result-aggregation pipeline of the repository's `noinput.py` driver, and
proves (or refutes) the frozen specification claims about it.

Modelling conventions:
* Python floats are modelled exactly by rationals; the claims at issue are
  about which arithmetic is performed, not about rounding.
* The external SWIG-wrapped APBS library (`apbslib`) is out of scope per the
  spec; its calls are modelled by an explicit oracle structure
  (`SolverOracle`) recording the status / values each call would return.
* The driver's side effects (stdout text, native allocations and their
  paired `kill*` / `delete_*` releases, solver invocations) are recorded in
  an explicit event trace so that claims about sequencing and about resource
  release can be stated.
-/

namespace Noinput

/-! ## Character classes

`noinput.py` is Python 2 code; `[A-Z]` and `\d` in its regular expression
match ASCII uppercase letters and ASCII digits, and `string.split` with no
separator splits on runs of ASCII whitespace. -/

/-- ASCII uppercase letter, as matched by `[A-Z]` in the source regex. -/
def isUpperC (c : Char) : Bool := decide (65 ≤ c.toNat ∧ c.toNat ≤ 90)

/-- ASCII digit, as matched by a digit class in the source regex. -/
def isDigitC (c : Char) : Bool := decide (48 ≤ c.toNat ∧ c.toNat ≤ 57)

/-- Python 2 `string.whitespace`: space, tab, newline, vertical tab, form
feed, carriage return. -/
def isSpaceC (c : Char) : Bool :=
  decide (c.toNat = 32 ∨ c.toNat = 9 ∨ c.toNat = 10 ∨ c.toNat = 11 ∨
          c.toNat = 12 ∨ c.toNat = 13)

/-- The space character (used when stating the chain-pattern
characterization). -/
def spaceChar : Char := Char.ofNat 32

/-! ## Tokenization

`string.split(PQR, "\n")` splits on every newline keeping empty pieces;
`string.split(atom)` (no separator) splits on whitespace runs dropping
empty pieces. -/

/-- Split a character list at newline characters, keeping empty lines
(the behaviour of Python `string.split(s, "\n")`). -/
def splitNL : List Char → List (List Char)
  | [] => [[]]
  | c :: rest =>
      if c.toNat = 10 then [] :: splitNL rest
      else
        match splitNL rest with
        | [] => [[c]]
        | l :: ls => (c :: l) :: ls

/-- Split a character list into whitespace-separated fields, dropping empty
fields (the behaviour of Python `string.split(s)` with no separator).  The
first argument accumulates the current field in reverse. -/
def splitWS : List Char → List Char → List (List Char)
  | acc, [] => if acc = [] then [] else [acc.reverse]
  | acc, c :: rest =>
      if isSpaceC c then
        if acc = [] then splitWS [] rest else acc.reverse :: splitWS [] rest
      else splitWS (c :: acc) rest

/-- Does `line` start with the token `tok` (Python `str.startswith`)? -/
def startsWithChars : List Char → List Char → Bool
  | [], _ => true
  | _ :: _, [] => false
  | p :: ps, c :: cs => p == c && startsWithChars ps cs

/-- Line selection of the atom record loader: lines 322 of `noinput.py`,
`atom.startswith("ATOM") or atom.startswith("HETATM")`. -/
def isRecordLine (line : List Char) : Bool :=
  startsWithChars "ATOM".toList line || startsWithChars "HETATM".toList line

/-! ## Chain-identifier detection

Line 327 of `noinput.py` runs
`re.compile("( [A-Z]{3} [A-Z]{1} *\\d+)").findall(atom) != []`,
i.e. asks whether the pattern
space, three uppercase letters, space, one uppercase letter, zero or more
spaces, at least one digit
occurs anywhere in the line.  Because a space can never begin a digit run,
the greedy `" *"` followed by a digit requirement is equivalent to skipping
the maximal space run and then requiring a digit. -/

/-- Tail of the regex: `" *\\d+"` matched as a prefix — skip spaces, then
require a digit. -/
def afterSpacesDigit : List Char → Bool
  | [] => false
  | c :: rest => if c.toNat = 32 then afterSpacesDigit rest else isDigitC c

/-- Does the regex `" [A-Z]{3} [A-Z]{1} *\\d+"` match starting exactly at the
head of `l`? -/
def chainPatternAt : List Char → Bool
  | s1 :: a :: b :: c :: s2 :: d :: rest =>
      s1.toNat == 32 && isUpperC a && isUpperC b && isUpperC c &&
      s2.toNat == 32 && isUpperC d && afterSpacesDigit rest
  | _ => false

/-- Does the regex match anywhere in the line (`findall(...) != []`)? -/
def hasChain : List Char → Bool
  | [] => false
  | c :: rest => chainPatternAt (c :: rest) || hasChain rest

/-- Line 326-328 of `noinput.py`: `haschain` is `1` when the chain pattern
occurs in the line and `0` otherwise. -/
def haschain (line : List Char) : ℕ := if hasChain line then 1 else 0

/-! ## Numeric field parsing

The source calls Python's `float()` on each extracted field.  We model it on
plain signed decimal literals (optional sign, digits, optional fractional
part) — the shape of every field the driver's record format carries;
exponent and infinity forms of `float()` are not exercised here. -/

/-- Value of a digit string, most significant first. -/
def digitsToNat (l : List Char) : ℕ :=
  l.foldl (fun n c => 10 * n + (c.toNat - 48)) 0

/-- Parse an unsigned decimal literal: digits, optionally followed by a dot
and more digits; at least one digit overall. -/
def parseUnsignedDec (l : List Char) : Option ℚ :=
  let intPart := l.takeWhile isDigitC
  let rest := l.dropWhile isDigitC
  match rest with
  | [] => if intPart = [] then none else some (digitsToNat intPart : ℚ)
  | c :: rest2 =>
      if c.toNat = 46 then
        let fracPart := rest2.takeWhile isDigitC
        if rest2.dropWhile isDigitC ≠ [] then none
        else if intPart = [] ∧ fracPart = [] then none
        else some ((digitsToNat intPart : ℚ) +
                   (digitsToNat fracPart : ℚ) / 10 ^ fracPart.length)
      else none

/-- Parse a signed decimal literal (model of Python `float()` on the
driver's record fields). -/
def parseDecimal : List Char → Option ℚ
  | [] => none
  | c :: rest =>
      if c.toNat = 45 then (parseUnsignedDec rest).map (fun q => -q)
      else if c.toNat = 43 then parseUnsignedDec rest
      else parseUnsignedDec (c :: rest)

/-! ## Atom records -/

/-- An atom as loaded by the driver (coordinates, charge, radius appended to
`x`, `y`, `z`, `chg`, `rad` at lines 331-335 of `noinput.py`). -/
structure Atom where
  x : ℚ
  y : ℚ
  z : ℚ
  charge : ℚ
  radius : ℚ
deriving DecidableEq, Repr

/-- Failure of a selected atom record.  `missingField` models the Python
`IndexError` raised by `params[i]` when the whitespace-split record has too
few fields; `badNumber` models the `ValueError` raised by `float()` on a
non-numeric field.  Both are what the specification calls a `ParseError`. -/
inductive AtomParseError where
  | missingField
  | badNumber
deriving DecidableEq, Repr

/-- Extract field `i` of a split record and convert it with `float()`
(one `…append(float(params[i]))` step of lines 331-335). -/
def parseField (params : List (List Char)) (i : ℕ) : Except AtomParseError ℚ :=
  match params.get? i with
  | none => .error .missingField
  | some s =>
      match parseDecimal s with
      | none => .error .badNumber
      | some q => .ok q

/-- Parse one selected atom record: detect the chain field, whitespace-split,
and read x, y, z, charge, radius at offsets `5+haschain … 9+haschain`
(lines 325-335 of `noinput.py`).  Fields are read left to right, so the
first failing field determines the error, as in the source. -/
def parseAtomLine (line : List Char) : Except AtomParseError Atom :=
  let h := haschain line
  let params := splitWS [] line
  match parseField params (5 + h), parseField params (6 + h),
        parseField params (7 + h), parseField params (8 + h),
        parseField params (9 + h) with
  | .ok xv, .ok yv, .ok zv, .ok cv, .ok rv => .ok ⟨xv, yv, zv, cv, rv⟩
  | .error e, _, _, _, _ => .error e
  | .ok _, .error e, _, _, _ => .error e
  | .ok _, .ok _, .error e, _, _ => .error e
  | .ok _, .ok _, .ok _, .error e, _ => .error e
  | .ok _, .ok _, .ok _, .ok _, .error e => .error e

/-- The same parse with the field-offset shift given explicitly rather than
computed from the chain pattern (used to state the offset-shift claim). -/
def parseWithOffset (h : ℕ) (line : List Char) : Except AtomParseError Atom :=
  let params := splitWS [] line
  match parseField params (5 + h), parseField params (6 + h),
        parseField params (7 + h), parseField params (8 + h),
        parseField params (9 + h) with
  | .ok xv, .ok yv, .ok zv, .ok cv, .ok rv => .ok ⟨xv, yv, zv, cv, rv⟩
  | .error e, _, _, _, _ => .error e
  | .ok _, .error e, _, _, _ => .error e
  | .ok _, .ok _, .error e, _, _ => .error e
  | .ok _, .ok _, .ok _, .error e, _ => .error e
  | .ok _, .ok _, .ok _, .ok _, .error e => .error e

/-- The atom record loading loop, lines 319-335 of `noinput.py`: skip lines
not starting with `ATOM`/`HETATM` (and the dead empty-line check), parse the
rest in input order, aborting at the first failure. -/
def loadLines : List (List Char) → Except AtomParseError (List Atom)
  | [] => .ok []
  | line :: rest =>
      if isRecordLine line = false then loadLines rest
      else if line = [] then loadLines rest
      else
        match parseAtomLine line, loadLines rest with
        | .ok a, .ok as => .ok (a :: as)
        | .error e, _ => .error e
        | .ok _, .error e => .error e

/-- Parse every line of an already-selected list of records, in order. -/
def parseSelected : List (List Char) → Except AtomParseError (List Atom)
  | [] => .ok []
  | line :: rest =>
      match parseAtomLine line, parseSelected rest with
      | .ok a, .ok as => .ok (a :: as)
      | .error e, _ => .error e
      | .ok _, .error e => .error e

/-- Load the atoms of a PQR string: split at newlines and run the record
loop (`atoms = string.split(PQR, "\n")`, line 319). -/
def loadAtoms (pqr : String) : Except AtomParseError (List Atom) :=
  loadLines (splitNL pqr.toList)

/-! ## Unit conversion and result reporting -/

/-- `Python_kb = 1.3806581e-23` (line 105). -/
def Python_kb : ℚ := 13806581 / 10 ^ 30

/-- `Python_Na = 6.0221367e+23` (line 106). -/
def Python_Na : ℚ := 60221367 * 10 ^ 16

/-- `getUnitConversion` (lines 132-141): conversion factor from kT to
kJ/mol, computed at the fixed temperature `298.15` — the function takes no
temperature argument, so per-calculation configured temperatures cannot
influence it. -/
def getUnitConversion : ℚ :=
  let temp : ℚ := 29815 / 100
  Python_kb / 1000 * temp * Python_Na

/-- Per-atom force components of one calculation, as stored by
`getForces`: three named lists (`qf`, `ib`, `db`) of xyz triples. -/
structure ForceBundle where
  qf : List (ℚ × ℚ × ℚ)
  ib : List (ℚ × ℚ × ℚ)
  db : List (ℚ × ℚ × ℚ)
deriving DecidableEq, Repr

/-- Scale the three components of one force triple (the
`qflist[j][k]*factor` arithmetic of lines 271-273). -/
def scaleTriple (f : ℚ) (t : ℚ × ℚ × ℚ) : ℚ × ℚ × ℚ :=
  (t.1 * f, t.2.1 * f, t.2.2 * f)

/-- The numeric values written by `printResults` (lines 219-276), keeping
the list structure and the conversion arithmetic and abstracting the
text formatting. -/
structure Report where
  potentialValues : List (List ℚ)
  energyValues : List (List ℚ)
  forceValues : List ForceBundle
deriving DecidableEq, Repr

/-- `printResults(energyList, potList, forceList)`: potentials are printed
as-is in kT/e; energies as `value * factor * 0.5` in kJ/mol; each force
component as `value * factor`. -/
def printResults (energyList potList : List (List ℚ)) (forceList : List ForceBundle) :
    Report :=
  let factor := getUnitConversion
  { potentialValues := potList.map (fun l => l.map (fun atom => atom)),
    energyValues := energyList.map (fun l => l.map (fun atom => atom * factor * (1 / 2))),
    forceValues := forceList.map (fun fb =>
      { qf := fb.qf.map (scaleTriple factor),
        ib := fb.ib.map (scaleTriple factor),
        db := fb.db.map (scaleTriple factor) }) }

/-! ## The calculation orchestrator (`runAPBS`, lines 279-511)

The external `apbslib` calls are modelled by an oracle giving the status and
payload each call would return; the driver's observable actions (solver
lifecycle calls, print-directive evaluations, the warning on an undefined
print keyword, and every `kill*` / `delete_*` release call of the cleanup
block) are recorded in an event trace. -/

/-- `NPT_ENERGY` print-directive tag (external constant from `apbslib`;
only its distinctness from `NPT_FORCE` matters here). -/
def NPT_ENERGY : ℤ := 0

/-- `NPT_FORCE` print-directive tag (external constant from `apbslib`). -/
def NPT_FORCE : ℤ := 1

/-- The parts of the parsed `NOsh` configuration object the driver reads:
the calculation count and types, and the print directives. -/
structure NOshModel where
  ncalc : ℕ
  calctype : ℕ → ℤ
  nprint : ℕ
  printWhat : ℕ → ℤ

/-- Oracle for the external solver library: the status or payload every
`apbslib` call made by `runAPBS` would return.  `energyMG` returns a
(status, total-energy) pair, exactly as the wrapped call at line 430 does. -/
structure SolverOracle where
  parseInputOk : Bool
  setupElecOk : Bool
  loadDielOk : Bool
  loadKappaOk : Bool
  loadChargeOk : Bool
  initMGOk : ℕ → Bool
  solveMGOk : ℕ → Bool
  setPartMGOk : ℕ → Bool
  energyMG : ℕ → ℤ × ℚ
  forceMG : ℕ → ℤ
  getPotentials : ℕ → List ℚ
  getEnergies : ℕ → List ℚ
  getForces : ℕ → ForceBundle

/-- Observable actions of a run. -/
inductive Event where
  | initMG (i : ℕ)
  | solveMG (i : ℕ)
  | setPartMG (i : ℕ)
  | energyMG (i : ℕ)
  | forceMG (i : ℕ)
  | printEnergy (i : ℕ)
  | printForce (i : ℕ)
  | warnUndefined
  | release (r : String)
deriving DecidableEq, Repr

/-- Is this event one of the `kill*` / `delete_*` release calls of the
cleanup block? -/
def Event.isRelease : Event → Bool
  | .release _ => true
  | _ => false

/-- Is this event a per-calculation solver-lifecycle call? -/
def Event.isCalcStep : Event → Bool
  | .initMG _ => true
  | .solveMG _ => true
  | .setPartMG _ => true
  | .energyMG _ => true
  | .forceMG _ => true
  | _ => false

/-- The typed errors `runAPBS` can signal.  In the source every one is the
string-based `APBSError` (or, for atom records, an uncaught
`IndexError`/`ValueError`); the constructors follow the raise sites. -/
inductive APBSErrorKind where
  | inputParse
  | atomRecord (e : AtomParseError)
  | setupCalcs
  | dielMaps
  | kappaMaps
  | chargeMaps
  | unsupportedCalcType
  | setupMG
  | solvePDE
  | partitionInfo
deriving DecidableEq, Repr

/-- The mutable run-scoped state of the calculation loop. -/
structure LoopState where
  totEnergy : List ℚ
  energyList : List (List ℚ)
  potList : List (List ℚ)
  forceList : List ForceBundle
  trace : List Event
deriving DecidableEq, Repr

/-- Record one event. -/
def addEv (st : LoopState) (e : Event) : LoopState :=
  { st with trace := st.trace ++ [e] }

/-- One iteration of the calculation loop (lines 380-457): reject
non-multigrid calculation types, then `initMG`, `solveMG`, `setPartMG`
(each fatal on non-success), then `energyMG` (status discarded, value
stored at index `icalc` of `totEnergy`), then `wrap_forceMG`, then append
the per-atom potentials and energies, and the forces only when the
`wrap_forceMG` return was non-zero. -/
def doCalc (nosh : NOshModel) (lib : SolverOracle) (icalc : ℕ) (st : LoopState) :
    LoopState × Option APBSErrorKind :=
  if nosh.calctype icalc ≠ 0 then (st, some .unsupportedCalcType)
  else
    let st1 := addEv st (.initMG icalc)
    if lib.initMGOk icalc = false then (st1, some .setupMG)
    else
      let st2 := addEv st1 (.solveMG icalc)
      if lib.solveMGOk icalc = false then (st2, some .solvePDE)
      else
        let st3 := addEv st2 (.setPartMG icalc)
        if lib.setPartMGOk icalc = false then (st3, some .partitionInfo)
        else
          let st4 := addEv st3 (.energyMG icalc)
          let st5 := { st4 with totEnergy := st4.totEnergy.set icalc (lib.energyMG icalc).2 }
          let doforce := lib.forceMG icalc
          let st6 := addEv st5 (.forceMG icalc)
          let st7 := { st6 with
            potList := st6.potList ++ [lib.getPotentials icalc],
            energyList := st6.energyList ++ [lib.getEnergies icalc] }
          let st8 :=
            if doforce ≠ 0 then { st7 with forceList := st7.forceList ++ [lib.getForces icalc] }
            else st7
          (st8, none)

/-- The calculation loop over a list of calculation indices, aborting at
the first failing iteration. -/
def runCalcs (nosh : NOshModel) (lib : SolverOracle) :
    List ℕ → LoopState → LoopState × Option APBSErrorKind
  | [], st => (st, none)
  | i :: rest, st =>
      match doCalc nosh lib i st with
      | (st2, some e) => (st2, some e)
      | (st2, none) => runCalcs nosh lib rest st2

/-- The print-directive loop (lines 464-471): an `NPT_ENERGY` directive
evaluates `printEnergy`, an `NPT_FORCE` directive evaluates `printForce`,
and any other kind writes `Undefined PRINT keyword!` and then executes
`break`, ending the whole loop. -/
def runPrints (nosh : NOshModel) : List ℕ → List Event
  | [] => []
  | i :: rest =>
      if nosh.printWhat i = NPT_ENERGY then .printEnergy i :: runPrints nosh rest
      else if nosh.printWhat i = NPT_FORCE then .printForce i :: runPrints nosh rest
      else [.warnUndefined]

/-- The cleanup block, lines 477-499: the `kill*` and `delete_*` calls, in
source order.  (`delete_Nosh`, `delete_Com` and `delete_Mem` are commented
out in the source and so are absent here.) -/
def releaseEvents : List Event :=
  [.release "killForce", .release "killEnergy", .release "killMG",
   .release "killChargeMaps", .release "killKappaMaps", .release "killDielMaps",
   .release "killMolecules",
   .release "delete_double_array realCenter", .release "delete_int_array nforce",
   .release "delete_atomforcelist atomforce", .release "delete_valist alist",
   .release "delete_gridlist dielXMap", .release "delete_gridlist dielYMap",
   .release "delete_gridlist dielZMap", .release "delete_gridlist kappaMap",
   .release "delete_gridlist chargeMap", .release "delete_pmglist pmg",
   .release "delete_pmgplist pmgp", .release "delete_pbelist pbe"]

/-- The lists `runAPBS` returns on success (and, for stating claims about
the energy print directives, the run-scoped `totEnergy` array it passes to
`printEnergy`). -/
structure RunResult where
  energyList : List (List ℚ)
  potList : List (List ℚ)
  forceList : List ForceBundle
  totEnergy : List ℚ
deriving DecidableEq, Repr

/-- The `runAPBS` driver (lines 279-511): parse the input string, load the
atom records, set up the elec calculations, pre-size `totEnergy` to the
configured calculation count, load the dielectric/kappa/charge maps, run
the calculation loop, evaluate the print directives, and only then release
every native structure.  An `APBSError` raise is modelled by returning
`Except.error`; note that a raise exits the routine at once, so none of the
release events run on an error path, exactly as in the source (there is no
try/finally around the loop). -/
def runAPBS (nosh : NOshModel) (lib : SolverOracle) (pqr : String) :
    Except APBSErrorKind RunResult × List Event :=
  if lib.parseInputOk = false then (.error .inputParse, [])
  else
    match loadAtoms pqr with
    | .error e => (.error (.atomRecord e), [])
    | .ok _atoms =>
      if lib.setupElecOk = false then (.error .setupCalcs, [])
      else
        let totEnergy0 : List ℚ := List.replicate nosh.ncalc 0
        if lib.loadDielOk = false then (.error .dielMaps, [])
        else if lib.loadKappaOk = false then (.error .kappaMaps, [])
        else if lib.loadChargeOk = false then (.error .chargeMaps, [])
        else
          let st0 : LoopState := ⟨totEnergy0, [], [], [], []⟩
          match runCalcs nosh lib (List.range nosh.ncalc) st0 with
          | (st, some e) => (.error e, st.trace)
          | (st, none) =>
            (.ok ⟨st.energyList, st.potList, st.forceList, st.totEnergy⟩,
             st.trace ++ runPrints nosh (List.range nosh.nprint) ++ releaseEvents)

/-! ## Claim-side definitions

Definitions written from the specification's words (not from the source),
used to compare the spec against the embedded code. -/

/-- Decidable equality for `Except` results. -/
instance {ε α : Type} [DecidableEq ε] [DecidableEq α] :
    DecidableEq (Except ε α) := fun x y =>
  match x, y with
  | .error a, .error b => decidable_of_iff (a = b) (by simp)
  | .ok a, .ok b => decidable_of_iff (a = b) (by simp)
  | .error _, .ok _ => isFalse (by simp)
  | .ok _, .error _ => isFalse (by simp)

/-- Modelled from the claim's words: the chain pattern described as
"three uppercase letters, one uppercase letter, then a sequence of digits,
each separated by a single space", matched at the head of the list. -/
def claimPatternAt : List Char → Bool
  | a :: b :: c :: s1 :: d :: s2 :: e :: _ =>
      isUpperC a && isUpperC b && isUpperC c && s1.toNat == 32 &&
      isUpperC d && s2.toNat == 32 && isDigitC e
  | _ => false

/-- Modelled from the claim's words: the line contains the single-space
chain pattern somewhere. -/
def claimHasChain : List Char → Bool
  | [] => false
  | c :: rest => claimPatternAt (c :: rest) || claimHasChain rest

/-- Declarative description of the occurrences the source regex
`" [A-Z]{3} [A-Z]{1} *\\d+"` actually accepts: a space, three uppercase
letters, a space, one uppercase letter, zero or more further spaces, then a
digit. -/
def chainWitnessProp (l : List Char) : Prop :=
  ∃ pre a b c d n e post,
    l = pre ++ spaceChar :: a :: b :: c :: spaceChar :: d ::
      (List.replicate n spaceChar ++ e :: post) ∧
    isUpperC a = true ∧ isUpperC b = true ∧ isUpperC c = true ∧
    isUpperC d = true ∧ isDigitC e = true

/-! Concrete fixtures used by witnesses and counterexamples. -/

/-- A selected record containing an occurrence the source regex accepts
(zero spaces between the uppercase letter and the digits) that the claim's
single-space pattern does not contain. -/
def cexChainLine : List Char :=
  ("ATOM 1 I ABC D12 0.000 0.000 0.000 1.00 3.00").toList

/-- A configuration with three multigrid calculations and no print
directives. -/
def noshThree : NOshModel :=
  { ncalc := 3, calctype := fun _ => 0, nprint := 0, printWhat := fun _ => 0 }

/-- A configuration with two calculations whose second is not multigrid. -/
def noshBadType : NOshModel :=
  { ncalc := 2, calctype := fun i => if i = 0 then 0 else 1, nprint := 0,
    printWhat := fun _ => 0 }

/-- A configuration with one multigrid calculation and two print
directives: first an undefined kind, then an energy directive. -/
def noshBadPrint : NOshModel :=
  { ncalc := 1, calctype := fun _ => 0, nprint := 2,
    printWhat := fun i => if i = 0 then 7 else NPT_ENERGY }

/-- An oracle in which every external call succeeds. -/
def libAllOk : SolverOracle :=
  { parseInputOk := true, setupElecOk := true, loadDielOk := true,
    loadKappaOk := true, loadChargeOk := true,
    initMGOk := fun _ => true, solveMGOk := fun _ => true,
    setPartMGOk := fun _ => true,
    energyMG := fun i => (1, (i : ℚ)),
    forceMG := fun i => if i = 0 then 1 else 0,
    getPotentials := fun i => [(i : ℚ)],
    getEnergies := fun i => [(i : ℚ) + 1],
    getForces := fun i => ⟨[((i : ℚ), 0, 0)], [(0, 0, 0)], [(0, 0, 0)]⟩ }

/-- The all-success oracle with the solve step failing at calculation 1
(the second calculation). -/
def libSolveFail1 : SolverOracle :=
  { libAllOk with solveMGOk := fun i => decide (i ≠ 1) }

/-- The all-success oracle with the solve step failing at calculation 0. -/
def libSolveFail0 : SolverOracle :=
  { libAllOk with solveMGOk := fun _ => false }

/-- Is print directive `i` of a recognized kind? -/
def recognizedPrint (nosh : NOshModel) (i : ℕ) : Bool :=
  decide (nosh.printWhat i = NPT_ENERGY) || decide (nosh.printWhat i = NPT_FORCE)

/-- The evaluation event a recognized print directive emits. -/
def printEventOf (nosh : NOshModel) (i : ℕ) : Event :=
  if nosh.printWhat i = NPT_ENERGY then .printEnergy i else .printForce i

/-- A selected record with only nine fields (the radius field missing). -/
def shortLine : List Char := ("ATOM 1 I ION 1 0.0 0.0 0.0 1.0").toList

/-- A selected record with a negative radius field: out-of-range values
are not rejected. -/
def negRadLine : List Char := ("ATOM 1 I ION 1 5.0 6.0 7.0 1.0 -3.0").toList

/-! ## Orchestrator lemmas -/

/-- Calculation `i` is of the supported multigrid type and every
solver-lifecycle step of it succeeds. -/
def calcOk (nosh : NOshModel) (lib : SolverOracle) (i : ℕ) : Prop :=
  nosh.calctype i = 0 ∧ lib.initMGOk i = true ∧ lib.solveMGOk i = true ∧
  lib.setPartMGOk i = true

instance (nosh : NOshModel) (lib : SolverOracle) (i : ℕ) :
    Decidable (calcOk nosh lib i) := by
  unfold calcOk; infer_instance

/-- The events one fully successful loop iteration emits, in order. -/
def calcEvents (i : ℕ) : List Event :=
  [.initMG i, .solveMG i, .setPartMG i, .energyMG i, .forceMG i]

/-- A fully successful loop iteration: every list gains its entry and the
five lifecycle events are emitted in order. -/
lemma doCalc_ok {nosh : NOshModel} {lib : SolverOracle} {i : ℕ}
    (h : calcOk nosh lib i) (st : LoopState) :
    doCalc nosh lib i st =
      ({ totEnergy := st.totEnergy.set i (lib.energyMG i).2,
         energyList := st.energyList ++ [lib.getEnergies i],
         potList := st.potList ++ [lib.getPotentials i],
         forceList := st.forceList ++
           (if lib.forceMG i ≠ 0 then [lib.getForces i] else []),
         trace := st.trace ++ calcEvents i }, none) := by
  obtain ⟨h1, h2, h3, h4⟩ := h
  by_cases hf : lib.forceMG i ≠ 0 <;>
    simp [doCalc, addEv, h1, h2, h3, h4, calcEvents, hf]

lemma doCalc_badType {nosh : NOshModel} {lib : SolverOracle} {i : ℕ}
    (h : nosh.calctype i ≠ 0) (st : LoopState) :
    doCalc nosh lib i st = (st, some .unsupportedCalcType) := by
  simp [doCalc, h]

lemma doCalc_initFail {nosh : NOshModel} {lib : SolverOracle} {i : ℕ}
    (h1 : nosh.calctype i = 0) (h2 : lib.initMGOk i = false) (st : LoopState) :
    doCalc nosh lib i st =
      ({ st with trace := st.trace ++ [.initMG i] }, some .setupMG) := by
  simp [doCalc, addEv, h1, h2]

lemma doCalc_solveFail {nosh : NOshModel} {lib : SolverOracle} {i : ℕ}
    (h1 : nosh.calctype i = 0) (h2 : lib.initMGOk i = true)
    (h3 : lib.solveMGOk i = false) (st : LoopState) :
    doCalc nosh lib i st =
      ({ st with trace := st.trace ++ [.initMG i, .solveMG i] }, some .solvePDE) := by
  simp [doCalc, addEv, h1, h2, h3]

lemma doCalc_partFail {nosh : NOshModel} {lib : SolverOracle} {i : ℕ}
    (h1 : nosh.calctype i = 0) (h2 : lib.initMGOk i = true)
    (h3 : lib.solveMGOk i = true) (h4 : lib.setPartMGOk i = false) (st : LoopState) :
    doCalc nosh lib i st =
      ({ st with trace := st.trace ++ [.initMG i, .solveMG i, .setPartMG i] },
       some .partitionInfo) := by
  simp [doCalc, addEv, h1, h2, h3, h4]

/-- Splitting the calculation loop at a list append. -/
lemma runCalcs_append (nosh : NOshModel) (lib : SolverOracle)
    (l1 l2 : List ℕ) (st : LoopState) :
    runCalcs nosh lib (l1 ++ l2) st =
      match runCalcs nosh lib l1 st with
      | (st1, some e) => (st1, some e)
      | (st1, none) => runCalcs nosh lib l2 st1 := by
  induction l1 generalizing st with
  | nil => simp [runCalcs]
  | cons i rest ih =>
      simp only [List.cons_append, runCalcs]
      rcases hdc : doCalc nosh lib i st with ⟨st2, r⟩
      cases r with
      | none => simp [ih st2]
      | some e => simp

/-- A fully successful loop run: one result appended per calculation in
order, forces only for the iterations whose `wrap_forceMG` return was
non-zero, one energy stored per index, and one block of lifecycle events
per calculation. -/
lemma runCalcs_ok {nosh : NOshModel} {lib : SolverOracle} {idxs : List ℕ}
    (h : ∀ i ∈ idxs, calcOk nosh lib i) (st : LoopState) :
    runCalcs nosh lib idxs st =
      ({ totEnergy := idxs.foldl (fun te i => te.set i (lib.energyMG i).2) st.totEnergy,
         energyList := st.energyList ++ idxs.map lib.getEnergies,
         potList := st.potList ++ idxs.map lib.getPotentials,
         forceList := st.forceList ++
           (idxs.filter (fun i => decide (lib.forceMG i ≠ 0))).map lib.getForces,
         trace := st.trace ++ (idxs.map calcEvents).flatten }, none) := by
  induction idxs generalizing st with
  | nil => simp [runCalcs]
  | cons i rest ih =>
      have hi : calcOk nosh lib i := h i (by simp)
      have hrest : ∀ j ∈ rest, calcOk nosh lib j := fun j hj => h j (by simp [hj])
      simp only [runCalcs, doCalc_ok hi st]
      rw [ih hrest]
      by_cases hf : lib.forceMG i ≠ 0 <;>
        simp [hf, List.filter_cons, List.foldl_cons, List.append_assoc]

/-- All pre-loop external calls succeed: input parse, elec setup, and the
three map loads. -/
def preOk (lib : SolverOracle) : Prop :=
  lib.parseInputOk = true ∧ lib.setupElecOk = true ∧ lib.loadDielOk = true ∧
  lib.loadKappaOk = true ∧ lib.loadChargeOk = true

instance (lib : SolverOracle) : Decidable (preOk lib) := by
  unfold preOk; infer_instance

/-- A fully successful run of `runAPBS`: the returned result lists and the
full trace. -/
lemma runAPBS_ok {nosh : NOshModel} {lib : SolverOracle} {pqr : String}
    {atoms : List Atom} (hpre : preOk lib) (hatoms : loadAtoms pqr = .ok atoms)
    (hall : ∀ i < nosh.ncalc, calcOk nosh lib i) :
    runAPBS nosh lib pqr =
      (.ok { energyList := (List.range nosh.ncalc).map lib.getEnergies,
             potList := (List.range nosh.ncalc).map lib.getPotentials,
             forceList := ((List.range nosh.ncalc).filter
               (fun i => decide (lib.forceMG i ≠ 0))).map lib.getForces,
             totEnergy := (List.range nosh.ncalc).foldl
               (fun te i => te.set i (lib.energyMG i).2)
               (List.replicate nosh.ncalc 0) },
       ((List.range nosh.ncalc).map calcEvents).flatten ++
         runPrints nosh (List.range nosh.nprint) ++ releaseEvents) := by
  obtain ⟨h1, h2, h3, h4, h5⟩ := hpre
  have hall2 : ∀ i ∈ List.range nosh.ncalc, calcOk nosh lib i := by
    intro i hi; exact hall i (List.mem_range.mp hi)
  simp [runAPBS, h1, h2, h3, h4, h5, hatoms, runCalcs_ok hall2]

/-- A run whose first failing calculation is `i`: all pre-loop calls and
all calculations before `i` succeed, and iteration `i` fails with error `e`
after emitting the events `d`.  The run returns `e` with no result and the
trace ends at iteration `i`. -/
lemma runAPBS_fail {nosh : NOshModel} {lib : SolverOracle} {pqr : String}
    {atoms : List Atom} {i : ℕ} {e : APBSErrorKind} {d : List Event}
    (hpre : preOk lib) (hatoms : loadAtoms pqr = .ok atoms)
    (hi : i < nosh.ncalc) (hprev : ∀ j < i, calcOk nosh lib j)
    (hfail : ∀ st, doCalc nosh lib i st =
      ({ st with trace := st.trace ++ d }, some e)) :
    runAPBS nosh lib pqr =
      (.error e, ((List.range i).map calcEvents).flatten ++ d) := by
  obtain ⟨h1, h2, h3, h4, h5⟩ := hpre
  have hprev2 : ∀ j ∈ List.range i, calcOk nosh lib j := by
    intro j hj; exact hprev j (List.mem_range.mp hj)
  obtain ⟨k, hk⟩ : ∃ k, nosh.ncalc = i + (k + 1) :=
    ⟨nosh.ncalc - i - 1, by omega⟩
  have hsplit : List.range nosh.ncalc =
      List.range i ++ (i :: ((List.range k).map Nat.succ).map (i + ·)) := by
    rw [hk, List.range_add, List.range_succ_eq_map]
    simp
  simp only [runAPBS, h1, h2, h3, h4, h5, hatoms, Bool.true_eq_false, if_false,
    hsplit, runCalcs_append, runCalcs_ok hprev2]
  rw [runCalcs]
  rw [hfail]
  simp

/-! ## Chain-pattern characterization lemmas -/

lemma toNat_eq_32_iff {c : Char} : c.toNat = 32 ↔ c = spaceChar := by
  constructor
  · intro h
    exact Char.ext (UInt32.ext (h.trans (by decide)))
  · rintro rfl; decide

/-- The tail matcher accepts exactly the lists made of some spaces followed
by a digit. -/
lemma afterSpacesDigit_iff (l : List Char) :
    afterSpacesDigit l = true ↔
      ∃ n e post, l = List.replicate n spaceChar ++ e :: post ∧
        isDigitC e = true := by
  induction l with
  | nil =>
      constructor
      · intro h; exact absurd h (by simp [afterSpacesDigit])
      · rintro ⟨n, e, post, hl, _⟩
        exact absurd hl.symm (by simp)
  | cons c rest ih =>
      by_cases hc : c.toNat = 32
      · have hcs : c = spaceChar := toNat_eq_32_iff.mp hc
        subst hcs
        rw [afterSpacesDigit, if_pos hc, ih]
        constructor
        · rintro ⟨n, e, post, hl, he⟩
          exact ⟨n + 1, e, post, by simp [List.replicate_succ, hl], he⟩
        · rintro ⟨n, e, post, hl, he⟩
          cases n with
          | zero =>
              simp only [List.replicate, List.nil_append, List.cons.injEq] at hl
              obtain ⟨rfl, _⟩ := hl
              exact absurd he (by decide)
          | succ m =>
              rw [List.replicate_succ] at hl
              simp only [List.cons_append, List.cons.injEq] at hl
              exact ⟨m, e, post, hl.2, he⟩
      · rw [afterSpacesDigit, if_neg hc]
        constructor
        · intro he
          exact ⟨0, c, rest, by simp, he⟩
        · rintro ⟨n, e, post, hl, he⟩
          cases n with
          | zero =>
              simp only [List.replicate, List.nil_append, List.cons.injEq] at hl
              obtain ⟨rfl, _⟩ := hl
              exact he
          | succ m =>
              rw [List.replicate_succ] at hl
              simp only [List.cons_append, List.cons.injEq] at hl
              exact absurd (toNat_eq_32_iff.mpr hl.1) hc

/-- The head matcher accepts exactly the regex's pattern shape. -/
lemma chainPatternAt_iff (l : List Char) :
    chainPatternAt l = true ↔
      ∃ a b c d n e post,
        l = spaceChar :: a :: b :: c :: spaceChar :: d ::
          (List.replicate n spaceChar ++ e :: post) ∧
        isUpperC a = true ∧ isUpperC b = true ∧ isUpperC c = true ∧
        isUpperC d = true ∧ isDigitC e = true := by
  constructor
  · intro h
    unfold chainPatternAt at h
    split at h
    next s1 a b c s2 d rest =>
      simp only [Bool.and_eq_true, beq_iff_eq] at h
      obtain ⟨⟨⟨⟨⟨⟨hs1, ha⟩, hb⟩, hc⟩, hs2⟩, hd⟩, hrest⟩ := h
      obtain ⟨n, e, post, hre, he⟩ := (afterSpacesDigit_iff rest).mp hrest
      refine ⟨a, b, c, d, n, e, post, ?_, ha, hb, hc, hd, he⟩
      rw [toNat_eq_32_iff.mp hs1, toNat_eq_32_iff.mp hs2, hre]
    next => exact absurd h (by simp)
  · rintro ⟨a, b, c, d, n, e, post, rfl, ha, hb, hc, hd, he⟩
    have hsp : spaceChar.toNat = 32 := by decide
    simp only [chainPatternAt, hsp, beq_self_eq_true, ha, hb, hc, hd,
      Bool.true_and, Bool.and_true]
    exact (afterSpacesDigit_iff _).mpr ⟨n, e, post, rfl, he⟩

/-- The scan accepts exactly the lists with a matching suffix. -/
lemma hasChain_iff_suffix (l : List Char) :
    hasChain l = true ↔ ∃ pre suf, l = pre ++ suf ∧ chainPatternAt suf = true := by
  induction l with
  | nil =>
      constructor
      · intro h; exact absurd h (by simp [hasChain])
      · rintro ⟨pre, suf, hl, hp⟩
        have hsuf : suf = [] := (List.append_eq_nil.mp hl.symm).2
        rw [hsuf] at hp
        exact absurd hp (by decide)
  | cons c rest ih =>
      rw [hasChain]
      simp only [Bool.or_eq_true]
      constructor
      · rintro (h | h)
        · exact ⟨[], c :: rest, rfl, h⟩
        · obtain ⟨pre, suf, hl, hp⟩ := ih.mp h
          exact ⟨c :: pre, suf, by simp [hl], hp⟩
      · rintro ⟨pre, suf, hl, hp⟩
        cases pre with
        | nil =>
            left
            simp only [List.nil_append] at hl
            rw [hl]
            exact hp
        | cons p ps =>
            right
            injection hl with h1 h2
            exact ih.mpr ⟨ps, suf, h2, hp⟩

/-- The source's chain detection accepts exactly the lines containing a
space, three uppercase letters, a space, one uppercase letter, zero or more
spaces, and then a digit. -/
lemma hasChain_iff (l : List Char) :
    hasChain l = true ↔ chainWitnessProp l := by
  rw [hasChain_iff_suffix]
  constructor
  · rintro ⟨pre, suf, rfl, hp⟩
    obtain ⟨a, b, c, d, n, e, post, rfl, ha, hb, hc, hd, he⟩ :=
      (chainPatternAt_iff suf).mp hp
    exact ⟨pre, a, b, c, d, n, e, post, rfl, ha, hb, hc, hd, he⟩
  · rintro ⟨pre, a, b, c, d, n, e, post, rfl, ha, hb, hc, hd, he⟩
    exact ⟨pre, _, rfl,
      (chainPatternAt_iff _).mpr ⟨a, b, c, d, n, e, post, rfl, ha, hb, hc, hd, he⟩⟩

/-! ## Atom-record parsing lemmas -/

/-- The record parse is the offset-shifted parse at the chain-computed
offset. -/
lemma parseAtomLine_eq_offset (line : List Char) :
    parseAtomLine line = parseWithOffset (haschain line) line := rfl

/-- A successful field extraction needs the field to exist. -/
lemma parseField_ok_length {params : List (List Char)} {i : ℕ} {q : ℚ}
    (h : parseField params i = .ok q) : i < params.length := by
  by_contra hlen
  have hnone : params.get? i = none := List.get?_eq_none.mpr (by omega)
  rw [List.get?_eq_getElem?] at hnone
  simp [parseField, hnone] at h

/-- If all five fields extract, the parse succeeds with exactly those
values — no further validation is applied. -/
lemma parseWithOffset_ok_of_fields {h : ℕ} {line : List Char}
    {xv yv zv cv rv : ℚ}
    (e5 : parseField (splitWS [] line) (5 + h) = .ok xv)
    (e6 : parseField (splitWS [] line) (6 + h) = .ok yv)
    (e7 : parseField (splitWS [] line) (7 + h) = .ok zv)
    (e8 : parseField (splitWS [] line) (8 + h) = .ok cv)
    (e9 : parseField (splitWS [] line) (9 + h) = .ok rv) :
    parseWithOffset h line = .ok ⟨xv, yv, zv, cv, rv⟩ := by
  simp only [parseWithOffset]
  rw [e5, e6, e7, e8, e9]

/-- A successful parse implies in particular that the radius field (the
furthest offset used) was extracted. -/
lemma parseWithOffset_ok_radius {h : ℕ} {line : List Char} {a : Atom}
    (hok : parseWithOffset h line = .ok a) :
    ∃ q, parseField (splitWS [] line) (9 + h) = .ok q := by
  unfold parseWithOffset at hok
  rcases h5 : parseField (splitWS [] line) (5 + h) with e | xv <;>
    rcases h6 : parseField (splitWS [] line) (6 + h) with e | yv <;>
    rcases h7 : parseField (splitWS [] line) (7 + h) with e | zv <;>
    rcases h8 : parseField (splitWS [] line) (8 + h) with e | cv <;>
    rcases h9 : parseField (splitWS [] line) (9 + h) with e | rv <;>
    simp only [h5, h6, h7, h8, h9] at hok <;>
    first
      | exact ⟨_, rfl⟩
      | cases hok

/-- The loading loop selects exactly the `ATOM`/`HETATM` lines, in input
order. -/
lemma loadLines_eq_parseSelected (lines : List (List Char)) :
    loadLines lines = parseSelected (lines.filter isRecordLine) := by
  induction lines with
  | nil => rfl
  | cons line rest ih =>
      by_cases hrec : isRecordLine line = true
      · have hne : line ≠ [] := by
          intro hnil
          rw [hnil] at hrec
          exact absurd hrec (by decide)
        rw [loadLines, if_neg (by simp [hrec]), if_neg hne]
        rw [List.filter_cons_of_pos hrec, parseSelected, ih]
      · have hrec' : isRecordLine line = false := by simpa using hrec
        rw [loadLines, if_pos hrec', List.filter_cons_of_neg (by simp [hrec']), ih]

/-- Whatever the outcome, one loop iteration only appends per-calculation
lifecycle events to the trace. -/
lemma doCalc_trace (nosh : NOshModel) (lib : SolverOracle) (i : ℕ) (st : LoopState) :
    ∃ d, (doCalc nosh lib i st).1.trace = st.trace ++ d ∧
      ∀ e ∈ d, e.isCalcStep = true := by
  by_cases h1 : nosh.calctype i = 0
  · by_cases h2 : lib.initMGOk i = true
    · by_cases h3 : lib.solveMGOk i = true
      · by_cases h4 : lib.setPartMGOk i = true
        · refine ⟨calcEvents i, ?_, ?_⟩
          · rw [doCalc_ok ⟨h1, h2, h3, h4⟩ st]
          · intro e he
            simp only [calcEvents] at he
            fin_cases he <;> rfl
        · rw [doCalc_partFail h1 h2 h3 (by simpa using h4) st]
          exact ⟨_, rfl, by intro e he; fin_cases he <;> rfl⟩
      · rw [doCalc_solveFail h1 h2 (by simpa using h3) st]
        exact ⟨_, rfl, by intro e he; fin_cases he <;> rfl⟩
    · rw [doCalc_initFail h1 (by simpa using h2) st]
      exact ⟨_, rfl, by intro e he; fin_cases he <;> rfl⟩
  · rw [doCalc_badType h1 st]
    exact ⟨[], by simp, by simp⟩

/-- Whatever the outcome, the calculation loop only appends
per-calculation lifecycle events to the trace. -/
lemma runCalcs_trace (nosh : NOshModel) (lib : SolverOracle) (idxs : List ℕ)
    (st : LoopState) :
    ∃ d, (runCalcs nosh lib idxs st).1.trace = st.trace ++ d ∧
      ∀ e ∈ d, e.isCalcStep = true := by
  induction idxs generalizing st with
  | nil => exact ⟨[], by simp [runCalcs], by simp⟩
  | cons i rest ih =>
      obtain ⟨d1, hd1, hc1⟩ := doCalc_trace nosh lib i st
      rw [runCalcs]
      rcases hdc : doCalc nosh lib i st with ⟨st2, r⟩
      rw [hdc] at hd1
      cases r with
      | some e => exact ⟨d1, hd1, hc1⟩
      | none =>
          obtain ⟨d2, hd2, hc2⟩ := ih st2
          have hd1' : st2.trace = st.trace ++ d1 := by simpa using hd1
          refine ⟨d1 ++ d2, by simp [hd2, hd1', List.append_assoc], ?_⟩
          intro e he
          rcases List.mem_append.mp he with h | h
          · exact hc1 e h
          · exact hc2 e h

/-- Membership in the flattened per-calculation event blocks. -/
lemma mem_calcEvents_flatten {e : Event} {l : List ℕ} :
    e ∈ (l.map calcEvents).flatten ↔ ∃ k ∈ l, e ∈ calcEvents k := by
  simp [List.mem_flatten]

/-- An `initMG` event can only come from its own calculation's block. -/
lemma initMG_mem_calcEvents {j k : ℕ} (h : Event.initMG j ∈ calcEvents k) :
    j = k := by
  simp only [calcEvents, List.mem_cons] at h
  rcases h with h | h | h | h | h | h <;> first | (injection h) | simp at h

/-- A `solveMG` event can only come from its own calculation's block. -/
lemma solveMG_mem_calcEvents {j k : ℕ} (h : Event.solveMG j ∈ calcEvents k) :
    j = k := by
  simp only [calcEvents, List.mem_cons] at h
  rcases h with h | h | h | h | h | h <;> first | (injection h) | simp at h

/-- The print-directive loop evaluates exactly the longest recognized
prefix of the directive list, in order, and emits the undefined-keyword
warning and stops as soon as an unrecognized kind is hit. -/
lemma runPrints_char (nosh : NOshModel) (idxs : List ℕ) :
    runPrints nosh idxs =
      (idxs.takeWhile (recognizedPrint nosh)).map (printEventOf nosh) ++
      (if idxs.dropWhile (recognizedPrint nosh) = [] then []
       else [Event.warnUndefined]) := by
  induction idxs with
  | nil => rfl
  | cons i rest ih =>
      by_cases he : nosh.printWhat i = NPT_ENERGY
      · have hrec : recognizedPrint nosh i = true := by
          simp [recognizedPrint, he]
        rw [runPrints, if_pos he, List.takeWhile_cons_of_pos hrec,
          List.dropWhile_cons_of_pos hrec, List.map_cons, ih]
        simp [printEventOf, he]
      · by_cases hf : nosh.printWhat i = NPT_FORCE
        · have hrec : recognizedPrint nosh i = true := by
            simp [recognizedPrint, hf]
          rw [runPrints, if_neg he, if_pos hf, List.takeWhile_cons_of_pos hrec,
            List.dropWhile_cons_of_pos hrec, List.map_cons, ih]
          simp [printEventOf, he]
        · have hrec : recognizedPrint nosh i = false := by
            simp [recognizedPrint, he, hf]
          rw [runPrints, if_neg he, if_neg hf,
            List.takeWhile_cons_of_neg (by simp [hrec]),
            List.dropWhile_cons_of_neg (by simp [hrec])]
          simp

/-- Setting entries of a list never changes its length, also under a fold. -/
lemma foldl_set_length (v : ℕ → ℚ) (l : List ℕ) (te : List ℚ) :
    (l.foldl (fun t i => t.set i (v i)) te).length = te.length := by
  induction l generalizing te with
  | nil => rfl
  | cons i rest ih => simp [List.foldl_cons, ih, List.length_set]

/-- After setting every index of `List.range n` in order, entry `i < n`
holds the value written for `i`. -/
lemma foldl_set_range_get (v : ℕ → ℚ) :
    ∀ (n : ℕ) (te : List ℚ), n ≤ te.length →
    ∀ i < n, ((List.range n).foldl (fun t j => t.set j (v j)) te).get? i =
      some (v i) := by
  intro n
  induction n with
  | zero => intro te hn i hi; omega
  | succ m ih =>
      intro te hn i hi
      rw [List.range_succ, List.foldl_append]
      simp only [List.foldl_cons, List.foldl_nil]
      rcases Nat.lt_or_ge i m with him | him
      · rw [List.get?_eq_getElem?, List.getElem?_set_ne (by omega),
          ← List.get?_eq_getElem?]
        exact ih te (by omega) i him
      · have hieq : i = m := by omega
        subst hieq
        have hlen : ((List.range i).foldl (fun t j => t.set j (v j)) te).length =
            te.length := foldl_set_length v _ te
        rw [List.get?_eq_getElem?, List.getElem?_set_self',
          List.getElem?_eq_getElem (by omega)]
        simp

/-- Changing only the status component of the `energyMG` returns changes
nothing in the calculation loop: the status is never inspected. -/
lemma runCalcs_energyStatus (nosh : NOshModel) (lib : SolverOracle) (r : ℕ → ℤ) :
    ∀ (idxs : List ℕ) (st : LoopState),
      runCalcs nosh { lib with energyMG := fun i => (r i, (lib.energyMG i).2) }
        idxs st = runCalcs nosh lib idxs st := by
  intro idxs
  induction idxs with
  | nil => intro st; rfl
  | cons i rest ih =>
      intro st
      have hd : doCalc nosh { lib with energyMG := fun i => (r i, (lib.energyMG i).2) }
          i st = doCalc nosh lib i st := rfl
      rw [runCalcs, runCalcs, hd]
      rcases doCalc nosh lib i st with ⟨st2, res⟩
      cases res with
      | none => exact ih st2
      | some e => rfl

/-- Changing only the status component of the `energyMG` returns changes
nothing observable about the whole run. -/
lemma runAPBS_energyStatus (nosh : NOshModel) (lib : SolverOracle)
    (pqr : String) (r : ℕ → ℤ) :
    runAPBS nosh { lib with energyMG := fun i => (r i, (lib.energyMG i).2) } pqr =
      runAPBS nosh lib pqr := by
  simp only [runAPBS, runCalcs_energyStatus]

/-! ## Claims -/

/-- Claim C1.  The claim states that on a solver-lifecycle failure all
already-acquired calculation-scoped resources are released before the typed
error propagates, exactly as on the success path.  The code violates this:
a solve failure propagates `APBSError` with no release events at all, while
the successful run of the same configuration performs all nineteen
`kill*`/`delete_*` releases. -/
theorem claim_C1_release_skipped_on_error :
    (runAPBS noshThree libSolveFail0 "").1 = .error .solvePDE ∧
    ((runAPBS noshThree libSolveFail0 "").2.filter Event.isRelease) = [] ∧
    ((runAPBS noshThree libAllOk "").2.filter Event.isRelease) = releaseEvents ∧
    releaseEvents ≠ [] := by
  refine ⟨?_, ?_, ?_, ?_⟩ <;> decide

/-- Claim C2.  A solve failure at calculation `i` aborts the run with the
typed solve error: no result lists are returned (the run returns an error,
not results), no calculation after `i` is ever started (every `initMG`
event in the trace is for a calculation index at most `i`), and the failing
solve call itself was made. -/
theorem claim_C2_solve_failure_aborts (nosh : NOshModel) (lib : SolverOracle)
    (pqr : String) (atoms : List Atom) (i : ℕ)
    (hpre : preOk lib) (hatoms : loadAtoms pqr = .ok atoms)
    (hi : i < nosh.ncalc) (hprev : ∀ j < i, calcOk nosh lib j)
    (hct : nosh.calctype i = 0) (hinit : lib.initMGOk i = true)
    (hsolve : lib.solveMGOk i = false) :
    (runAPBS nosh lib pqr).1 = .error .solvePDE ∧
    (∀ j, Event.initMG j ∈ (runAPBS nosh lib pqr).2 → j ≤ i) ∧
    Event.solveMG i ∈ (runAPBS nosh lib pqr).2 := by
  have hrun := runAPBS_fail hpre hatoms hi hprev (doCalc_solveFail hct hinit hsolve)
  rw [hrun]
  refine ⟨rfl, ?_, ?_⟩
  · intro j hj
    rcases List.mem_append.mp hj with hj | hj
    · obtain ⟨k, hk, hmem⟩ := mem_calcEvents_flatten.mp hj
      have hjk := initMG_mem_calcEvents hmem
      have hki := List.mem_range.mp hk
      omega
    · simp only [List.mem_cons, List.not_mem_nil, or_false] at hj
      rcases hj with hj | hj
      · injection hj with h; omega
      · cases hj
  · exact List.mem_append_right _ (by simp)

/-- Witness for C2: with three configured multigrid calculations and a
solve failure injected at calculation 1 (the second), the run returns the
typed solve error, calculation 2 is never started, and the failing solve
call was made. -/
theorem claim_C2_witness :
    (runAPBS noshThree libSolveFail1 "").1 = .error .solvePDE ∧
    (∀ j, Event.initMG j ∈ (runAPBS noshThree libSolveFail1 "").2 → j ≤ 1) ∧
    Event.solveMG 1 ∈ (runAPBS noshThree libSolveFail1 "").2 :=
  claim_C2_solve_failure_aborts noshThree libSolveFail1 "" [] 1
    (by decide) rfl (by decide) (by decide) rfl rfl (by decide)

/-- Claim C3.  The unit-conversion factor is the fixed constant
`(1.3806581e-23/1000) * 298.15 * 6.0221367e23` (the function takes no
temperature argument), and the reported values are: potentials unconverted,
per-atom energies `value * factor * 0.5`, and force components
`value * factor` with no `0.5`. -/
theorem claim_C3_unit_conversion :
    getUnitConversion =
      13806581 / 10 ^ 30 / 1000 * (29815 / 100) * (60221367 * 10 ^ 16) ∧
    getUnitConversion = 4957943394784961601 / 2000000000000000000 ∧
    (∀ eL pL fL, (printResults eL pL fL).potentialValues = pL) ∧
    (∀ eL pL fL, (printResults eL pL fL).energyValues =
      eL.map (fun l => l.map (fun v => v * getUnitConversion * (1 / 2)))) ∧
    (∀ eL pL fL, (printResults eL pL fL).forceValues =
      fL.map (fun fb =>
        { qf := fb.qf.map (scaleTriple getUnitConversion),
          ib := fb.ib.map (scaleTriple getUnitConversion),
          db := fb.db.map (scaleTriple getUnitConversion) })) := by
  refine ⟨rfl, by norm_num [getUnitConversion, Python_kb, Python_Na], ?_, ?_, ?_⟩ <;>
    intro eL pL fL <;> simp [printResults]

/-- Claim C4.  The atom loader selects exactly the lines beginning with
`ATOM` or `HETATM`, in input order, and the chainless example record parses
to the stated atom. -/
theorem claim_C4_atom_loader :
    (∀ lines, loadLines lines = parseSelected (lines.filter isRecordLine)) ∧
    loadAtoms "ATOM 1 I ION 1 0.000 0.000 0.000 1.00 3.00" =
      .ok [⟨0, 0, 0, 1, 3⟩] := by
  refine ⟨loadLines_eq_parseSelected, ?_⟩
  have hnl : splitNL ("ATOM 1 I ION 1 0.000 0.000 0.000 1.00 3.00").toList =
      [("ATOM 1 I ION 1 0.000 0.000 0.000 1.00 3.00").toList] := by decide
  have hch : haschain ("ATOM 1 I ION 1 0.000 0.000 0.000 1.00 3.00").toList = 0 := by
    decide
  have hsp : splitWS [] ("ATOM 1 I ION 1 0.000 0.000 0.000 1.00 3.00").toList =
      ["ATOM".toList, "1".toList, "I".toList, "ION".toList, "1".toList,
       "0.000".toList, "0.000".toList, "0.000".toList, "1.00".toList,
       "3.00".toList] := by decide
  have hparse : parseAtomLine ("ATOM 1 I ION 1 0.000 0.000 0.000 1.00 3.00").toList
      = .ok ⟨0, 0, 0, 1, 3⟩ := by
    simp [parseAtomLine, hch, hsp, parseField, List.get?, parseDecimal,
      parseUnsignedDec, digitsToNat, isDigitC, List.takeWhile_cons,
      List.takeWhile_nil, List.dropWhile_cons, List.dropWhile_nil]
  rw [loadAtoms, hnl, loadLines]
  rw [if_neg (by decide), if_neg (by decide), hparse, loadLines]

/-- Claim C5.  A selected record whose whitespace-split field list is
shorter than the computed offsets require (fewer than `10 + haschain`
fields) fails with a parse error; beyond existence and numeric form of the
five fields no validation is applied — any extracted values are accepted. -/
theorem claim_C5_short_record (line : List Char) :
    (isRecordLine line = true →
      (splitWS [] line).length < 10 + haschain line →
      ∃ e, parseAtomLine line = .error e) ∧
    (∀ xv yv zv cv rv : ℚ,
      parseField (splitWS [] line) (5 + haschain line) = .ok xv →
      parseField (splitWS [] line) (6 + haschain line) = .ok yv →
      parseField (splitWS [] line) (7 + haschain line) = .ok zv →
      parseField (splitWS [] line) (8 + haschain line) = .ok cv →
      parseField (splitWS [] line) (9 + haschain line) = .ok rv →
      parseAtomLine line = .ok ⟨xv, yv, zv, cv, rv⟩) := by
  constructor
  · intro _ hlen
    rcases hres : parseAtomLine line with e | a
    · exact ⟨e, rfl⟩
    · rw [parseAtomLine_eq_offset] at hres
      obtain ⟨q, hq⟩ := parseWithOffset_ok_radius hres
      have := parseField_ok_length hq
      omega
  · intro xv yv zv cv rv e5 e6 e7 e8 e9
    rw [parseAtomLine_eq_offset]
    exact parseWithOffset_ok_of_fields e5 e6 e7 e8 e9

/-- Witness for C5: a nine-field record (radius missing) fails to parse,
while a record with a negative radius parses fine — no range validation. -/
theorem claim_C5_witness :
    (∃ e, parseAtomLine shortLine = .error e) ∧
    parseAtomLine negRadLine = .ok ⟨5, 6, 7, 1, -3⟩ := by
  constructor
  · exact (claim_C5_short_record shortLine).1 (by decide) (by decide)
  · have hch : haschain negRadLine = 0 := by decide
    have hsp : splitWS [] negRadLine =
        ["ATOM".toList, "1".toList, "I".toList, "ION".toList, "1".toList,
         "5.0".toList, "6.0".toList, "7.0".toList, "1.0".toList,
         "-3.0".toList] := by decide
    refine (claim_C5_short_record negRadLine).2 5 6 7 1 (-3) ?_ ?_ ?_ ?_ ?_ <;>
      simp [hch, hsp, parseField, List.get?, parseDecimal, parseUnsignedDec,
        digitsToNat, isDigitC, List.takeWhile_cons, List.takeWhile_nil,
        List.dropWhile_cons, List.dropWhile_nil]

/-- Counterexample to claim C6.  The claim says a chain-identifier field is
detected exactly when the line contains three uppercase letters, one
uppercase letter, then digits, each separated by a single space.  The
record `"ATOM 1 I ABC D12 …"` contains no such single-space pattern (the
digits follow the uppercase letter with no space), yet the source regex
`" [A-Z]{3} [A-Z]{1} *\\d+"` matches it (the space run before the digits
may be empty), so the code sets the offset shift. -/
theorem claim_C6_counterexample :
    hasChain cexChainLine = true ∧ claimHasChain cexChainLine = false ∧
    haschain cexChainLine = 1 := by
  refine ⟨?_, ?_, ?_⟩ <;> decide

/-- Claim C6 as amended.  A chain-identifier field is detected exactly when
the line contains a space, three uppercase letters, a space, one uppercase
letter, and then zero or more further spaces followed by a digit; when
detected the x/y/z/charge/radius offsets 5-9 all shift right by exactly
one, and otherwise they do not shift. -/
theorem claim_C6_amended :
    (∀ l, hasChain l = true ↔ chainWitnessProp l) ∧
    (∀ line, parseAtomLine line = parseWithOffset (haschain line) line) ∧
    (∀ line, haschain line = if hasChain line then 1 else 0) :=
  ⟨hasChain_iff, parseAtomLine_eq_offset, fun _ => rfl⟩

/-- Claim C7.  A configured calculation of a non-multigrid type makes the
run fail with the unsupported-type error at the moment the loop reaches it:
all preceding multigrid calculations have been set up and solved, while no
solver setup call is ever made for the offending calculation — so the error
is raised at point of use, not at configuration-parse time. -/
theorem claim_C7_unsupported_type_lazy (nosh : NOshModel) (lib : SolverOracle)
    (pqr : String) (atoms : List Atom) (i : ℕ)
    (hpre : preOk lib) (hatoms : loadAtoms pqr = .ok atoms)
    (hi : i < nosh.ncalc) (hprev : ∀ j < i, calcOk nosh lib j)
    (hct : nosh.calctype i ≠ 0) :
    (runAPBS nosh lib pqr).1 = .error .unsupportedCalcType ∧
    (∀ j < i, Event.initMG j ∈ (runAPBS nosh lib pqr).2 ∧
      Event.solveMG j ∈ (runAPBS nosh lib pqr).2) ∧
    Event.initMG i ∉ (runAPBS nosh lib pqr).2 := by
  have hfail : ∀ st, doCalc nosh lib i st =
      ({ st with trace := st.trace ++ ([] : List Event) },
       some .unsupportedCalcType) := by
    intro st
    rw [doCalc_badType hct st]
    simp
  have hrun := runAPBS_fail hpre hatoms hi hprev hfail
  rw [hrun]
  refine ⟨rfl, ?_, ?_⟩
  · intro j hj
    constructor <;>
      exact List.mem_append_left _ (mem_calcEvents_flatten.mpr
        ⟨j, List.mem_range.mpr hj, by simp [calcEvents]⟩)
  · intro hmem
    rcases List.mem_append.mp hmem with hmem | hmem
    · obtain ⟨k, hk, hmemk⟩ := mem_calcEvents_flatten.mp hmem
      have hik := initMG_mem_calcEvents hmemk
      have := List.mem_range.mp hk
      omega
    · cases hmem

/-- Witness for C7: with calculation 0 multigrid and calculation 1 of
another type, calculation 0 runs and the failure surfaces only when the
loop reaches calculation 1, whose solver setup never happens. -/
theorem claim_C7_witness :
    (runAPBS noshBadType libAllOk "").1 = .error .unsupportedCalcType ∧
    (∀ j < 1, Event.initMG j ∈ (runAPBS noshBadType libAllOk "").2 ∧
      Event.solveMG j ∈ (runAPBS noshBadType libAllOk "").2) ∧
    Event.initMG 1 ∉ (runAPBS noshBadType libAllOk "").2 :=
  claim_C7_unsupported_type_lazy noshBadType libAllOk "" [] 1
    (by decide) rfl (by decide) (by decide) (by decide)

/-- Counterexample to claim C8.  The claim says an unrecognized print
directive is reported and skipped, the run not aborted, and every
recognized directive evaluated exactly once.  With directive 0 of an
undefined kind and directive 1 a recognized energy directive, the run is
indeed not aborted and returns results, but directive 1 is never evaluated:
the loop executes `break` after the warning. -/
theorem claim_C8_counterexample :
    (∃ res, (runAPBS noshBadPrint libAllOk "").1 = .ok res) ∧
    noshBadPrint.printWhat 1 = NPT_ENERGY ∧
    Event.printEnergy 1 ∉ (runAPBS noshBadPrint libAllOk "").2 ∧
    Event.warnUndefined ∈ (runAPBS noshBadPrint libAllOk "").2 := by
  refine ⟨⟨_, rfl⟩, rfl, ?_, ?_⟩ <;> decide

/-- Claim C8 as amended.  Print directives are evaluated only after all
calculations complete (every earlier trace event is a per-calculation
lifecycle call), in declared order: the directives evaluated are exactly
the longest recognized prefix of the directive list, an unrecognized kind
emits the warning and terminates directive evaluation (skipping every
later directive), and in every case the run is not aborted and still
returns the aggregated results. -/
theorem claim_C8_amended (nosh : NOshModel) (lib : SolverOracle) (pqr : String)
    (atoms : List Atom)
    (hpre : preOk lib) (hatoms : loadAtoms pqr = .ok atoms)
    (hall : ∀ i < nosh.ncalc, calcOk nosh lib i) :
    (∀ idxs, runPrints nosh idxs =
      (idxs.takeWhile (recognizedPrint nosh)).map (printEventOf nosh) ++
      (if idxs.dropWhile (recognizedPrint nosh) = [] then []
       else [Event.warnUndefined])) ∧
    (∃ res ctr, runAPBS nosh lib pqr =
      (.ok res, ctr ++ runPrints nosh (List.range nosh.nprint) ++ releaseEvents) ∧
      ∀ e ∈ ctr, e.isCalcStep = true) := by
  refine ⟨runPrints_char nosh, ?_⟩
  refine ⟨_, _, runAPBS_ok hpre hatoms hall, ?_⟩
  intro e he
  obtain ⟨k, hk, hmem⟩ := mem_calcEvents_flatten.mp he
  simp only [calcEvents] at hmem
  fin_cases hmem <;> rfl

/-- Witness for C8 as amended: concrete run with an undefined directive
followed by a recognized one — the run still succeeds, and the print trace
follows the prefix characterization. -/
theorem claim_C8_witness :
    (∀ idxs, runPrints noshBadPrint idxs =
      (idxs.takeWhile (recognizedPrint noshBadPrint)).map
        (printEventOf noshBadPrint) ++
      (if idxs.dropWhile (recognizedPrint noshBadPrint) = [] then []
       else [Event.warnUndefined])) ∧
    (∃ res ctr, runAPBS noshBadPrint libAllOk "" =
      (.ok res, ctr ++ runPrints noshBadPrint (List.range noshBadPrint.nprint) ++
        releaseEvents) ∧
      ∀ e ∈ ctr, e.isCalcStep = true) :=
  claim_C8_amended noshBadPrint libAllOk "" [] (by decide) rfl (by decide)

/-- Claim C9.  On a successful run the potential and energy lists have
exactly one entry per executed calculation, in calculation order and at the
same index, while the force list has one entry only for each calculation
whose force call requested components — so it may be shorter than the other
two. -/
theorem claim_C9_result_alignment (nosh : NOshModel) (lib : SolverOracle)
    (pqr : String) (atoms : List Atom)
    (hpre : preOk lib) (hatoms : loadAtoms pqr = .ok atoms)
    (hall : ∀ i < nosh.ncalc, calcOk nosh lib i) :
    ∃ res, (runAPBS nosh lib pqr).1 = .ok res ∧
      res.potList = (List.range nosh.ncalc).map lib.getPotentials ∧
      res.energyList = (List.range nosh.ncalc).map lib.getEnergies ∧
      res.forceList = ((List.range nosh.ncalc).filter
        (fun i => decide (lib.forceMG i ≠ 0))).map lib.getForces ∧
      res.potList.length = nosh.ncalc ∧
      res.energyList.length = nosh.ncalc ∧
      res.forceList.length = ((List.range nosh.ncalc).filter
        (fun i => decide (lib.forceMG i ≠ 0))).length := by
  rw [runAPBS_ok hpre hatoms hall]
  exact ⟨_, rfl, rfl, rfl, rfl, by simp, by simp, by simp⟩

/-- Witness for C9: a successful three-calculation run in which only
calculation 0 requests forces — the force list has a single entry while the
potential and energy lists have three. -/
theorem claim_C9_witness :
    ∃ res, (runAPBS noshThree libAllOk "").1 = .ok res ∧
      res.potList = (List.range noshThree.ncalc).map libAllOk.getPotentials ∧
      res.energyList = (List.range noshThree.ncalc).map libAllOk.getEnergies ∧
      res.forceList = ((List.range noshThree.ncalc).filter
        (fun i => decide (libAllOk.forceMG i ≠ 0))).map libAllOk.getForces ∧
      res.potList.length = noshThree.ncalc ∧
      res.energyList.length = noshThree.ncalc ∧
      res.forceList.length = ((List.range noshThree.ncalc).filter
        (fun i => decide (libAllOk.forceMG i ≠ 0))).length :=
  claim_C9_result_alignment noshThree libAllOk "" [] (by decide) rfl (by decide)

/-- Claim C10.  The status returned by the total-energy extraction call is
discarded: changing it (for every calculation) changes nothing about the
run, so a non-success status never raises an error; on a successful run,
`totEnergy` entry `i` holds exactly the value component the call returned,
and the force-extraction call of calculation `i` was made right after the
energy call. -/
theorem claim_C10_energy_status_discarded (nosh : NOshModel) (lib : SolverOracle)
    (pqr : String) (r : ℕ → ℤ) :
    runAPBS nosh { lib with energyMG := fun i => (r i, (lib.energyMG i).2) } pqr =
      runAPBS nosh lib pqr ∧
    (∀ atoms, preOk lib → loadAtoms pqr = .ok atoms →
      (∀ i < nosh.ncalc, calcOk nosh lib i) →
      ∀ i < nosh.ncalc, ∃ res, (runAPBS nosh lib pqr).1 = .ok res ∧
        res.totEnergy.get? i = some (lib.energyMG i).2 ∧
        Event.energyMG i ∈ (runAPBS nosh lib pqr).2 ∧
        Event.forceMG i ∈ (runAPBS nosh lib pqr).2) := by
  refine ⟨runAPBS_energyStatus nosh lib pqr r, ?_⟩
  intro atoms hpre hatoms hall i hi
  rw [runAPBS_ok hpre hatoms hall]
  refine ⟨_, rfl, ?_, ?_, ?_⟩
  · exact foldl_set_range_get (fun j => (lib.energyMG j).2) nosh.ncalc
      (List.replicate nosh.ncalc 0) (by simp) i hi
  · exact List.mem_append_left _ (List.mem_append_left _
      (mem_calcEvents_flatten.mpr ⟨i, List.mem_range.mpr hi, by simp [calcEvents]⟩))
  · exact List.mem_append_left _ (List.mem_append_left _
      (mem_calcEvents_flatten.mpr ⟨i, List.mem_range.mpr hi, by simp [calcEvents]⟩))

/-- Witness for C10: concrete three-calculation run — forcing every energy
status to 0 changes nothing, and calculation 1's stored total energy is the
value component returned by its energy call, with the force call following. -/
theorem claim_C10_witness :
    runAPBS noshThree
        { libAllOk with energyMG := fun i => (0, (libAllOk.energyMG i).2) } "" =
      runAPBS noshThree libAllOk "" ∧
    (∃ res, (runAPBS noshThree libAllOk "").1 = .ok res ∧
      res.totEnergy.get? 1 = some (libAllOk.energyMG 1).2 ∧
      Event.energyMG 1 ∈ (runAPBS noshThree libAllOk "").2 ∧
      Event.forceMG 1 ∈ (runAPBS noshThree libAllOk "").2) := by
  have h := claim_C10_energy_status_discarded noshThree libAllOk "" (fun _ => 0)
  exact ⟨h.1, h.2 [] (by decide) rfl (by decide) 1 (by decide)⟩

end Noinput
